import Mathlib

/-!
Verification development for the recorder/aggregator core of the IBKR_Bot
repository: a shallow embedding of `bot/daily_logger.py` and `bot/signals.py`
into Lean, followed by theorems about the embedded operations.

Modelling conventions:
- Python `float` values (SPX / VIX series values) are modelled as `ℚ`.
- `datetime` instants are modelled as `ℚ` seconds on a fixed-offset clock;
  `timedelta(seconds = k)` subtraction becomes subtraction of `k`, and
  `datetime.combine(now.date(), time(0, 0, 0))` becomes `midnightOf`.
- The open CSV file is modelled as a list of written lines plus a
  closed flag; `file.write` on a closed file is the error case
  (Python raises `ValueError` there), so fallible operations return
  `Except String`.  `flush` has no observable effect in this model.
- `threading` locks are not modelled (all operations are atomic steps);
  the pending `threading.Timer` is modelled as a `Bool` flag that
  `close` resets, and `file.close()` calls are counted so that
  double-close can be observed.
-/

/-- CSV cell of a data or marker row: an empty field, a numeric field, or a
formatted-timestamp field. -/
inductive Cell
  | empty
  | num (q : ℚ)
  | ts (t : ℚ)
deriving DecidableEq

/-- One written line of the CSV file: the header line or a data/marker row. -/
inductive Line
  | header (cols : List String)
  | row (cells : List Cell)
deriving DecidableEq

/-- Observable state of the file handle held by the logger: the lines written
so far, the closed flag, and how many times `close()` was actually invoked on
the handle. -/
structure FileState where
  lines : List Line
  closed : Bool
  closeCount : Nat
deriving DecidableEq

/-- Model of `self.file.write(...)`: appending a line succeeds on an open file
and raises (`ValueError` in Python) on a closed one. -/
def writeLine (f : FileState) (l : Line) : Except String FileState :=
  if f.closed then Except.error "I/O operation on closed file"
  else Except.ok ⟨f.lines ++ [l], f.closed, f.closeCount⟩

/-- Model of the guarded `if not self.file.closed: self.file.close()` pattern:
closing an open handle marks it closed and counts one close call; a closed
handle is left untouched. -/
def closeFile (f : FileState) : FileState :=
  if f.closed then f else ⟨f.lines, true, f.closeCount + 1⟩

/-- Trend labels produced by `bot/signals.py`. -/
inductive Trend
  | UP
  | DOWN
  | FLAT
  | NA
deriving DecidableEq

/-- Embedding of `signals._classify`: `None` maps to `NA`, then the
`value >= up_thresh` test, then `value <= -down_thresh`, otherwise `FLAT`. -/
def _classify (value : Option ℚ) (up_thresh down_thresh : ℚ) : Trend :=
  match value with
  | none => Trend.NA
  | some v =>
    if v ≥ up_thresh then Trend.UP
    else if v ≤ -down_thresh then Trend.DOWN
    else Trend.FLAT

/-- One buffered sample: `(timestamp, spx, vix)` as appended by `log`. -/
structure Sample where
  ts : ℚ
  spx : ℚ
  vix : ℚ
deriving DecidableEq

/-- Buffer timestamps are non-decreasing in append order (the documented
invariant of the rolling window). -/
def sortedByTs (buf : List Sample) : Prop :=
  List.Pairwise (fun a b => a.ts ≤ b.ts) buf

instance (buf : List Sample) : Decidable (sortedByTs buf) := by
  unfold sortedByTs
  infer_instance

namespace DailyMarketLogger

/-- Embedding of `LoggerOptions` (same defaults as the dataclass). -/
structure LoggerOptions where
  rotate_at_midnight : Bool
  rolling_horizons_seconds : List Int
  flush_each_write : Bool
  include_percent_columns : Bool
deriving DecidableEq

/-- Insertion of one element into an ascending list, used to model
Python `sorted`. -/
def insertSorted (x : Int) : List Int → List Int
  | [] => [x]
  | y :: ys => if x ≤ y then x :: y :: ys else y :: insertSorted x ys

/-- Ascending sort of an integer list, used to model Python `sorted`. -/
def sortInts (l : List Int) : List Int :=
  l.foldr insertSorted []

/-- Embedding of `sorted({int(h) for h in options.rolling_horizons_seconds if
int(h) > 0})`: keep the positive horizons, drop duplicates, sort ascending. -/
def mkHorizons (hs : List Int) : List Int :=
  sortInts ((hs.filter (fun h => decide (0 < h))).dedup)

/-- Embedding of `max(self._horizons) if self._horizons else 0`. -/
def maxHorizonOf (horizons : List Int) : Int :=
  horizons.foldr max 0

/-- Per-horizon header column names accumulated by the loop in
`_build_header`. -/
def horizonHeaderCols (includePct : Bool) : List Int → List String
  | [] => []
  | h :: rest =>
    (["dSPX_" ++ toString h ++ "s", "dVIX_" ++ toString h ++ "s"] ++
      (if includePct then ["pctSPX_" ++ toString h ++ "s", "pctVIX_" ++ toString h ++ "s"] else [])) ++
    horizonHeaderCols includePct rest

/-- Embedding of `_build_header`: the five fixed columns followed by the
per-horizon delta (and optionally percent) columns. -/
def _build_header (horizons : List Int) (includePct : Bool) : List String :=
  ["datetime_ny", "SPX", "VIX", "dSPX", "dVIX"] ++ horizonHeaderCols includePct horizons

/-- Embedding of `_ensure_header`: `self.file.tell() == 0` holds exactly when
the append-mode file is empty, and only then is the header line written. -/
def _ensure_header (f : FileState) (header : List String) : FileState :=
  if f.lines = [] then ⟨[Line.header header], f.closed, f.closeCount⟩ else f

/-- Rendering of an optional value: empty field for `None`, numeric field
otherwise. -/
def optNumCell : Option ℚ → Cell
  | none => Cell.empty
  | some q => Cell.num q

/-- Embedding of `datetime.combine(now.date(), time(0, 0, 0))` on the
fixed-offset clock: the greatest multiple of 86400 seconds not above `now`. -/
def midnightOf (t : ℚ) : ℚ :=
  (86400 : ℚ) * (⌊t / 86400⌋ : ℤ)

/-- Cells of the marker row built by `_write_marker_row`: timestamp, the two
optionally-known previous values, the two immediate delta fields empty, and
two (or four, with percent columns) empty fields per horizon. -/
def markerCells (horizons : List Int) (includePct : Bool) (tsv : ℚ)
    (prevSpx prevVix : Option ℚ) : List Cell :=
  [Cell.ts tsv, optNumCell prevSpx, optNumCell prevVix, Cell.empty, Cell.empty] ++
    markerTail includePct horizons
where
  /-- Per-horizon empty fields accumulated by the loop in
  `_write_marker_row`. -/
  markerTail (includePct : Bool) : List Int → List Cell
    | [] => []
    | _ :: rest =>
      ([Cell.empty, Cell.empty] ++ (if includePct then [Cell.empty, Cell.empty] else [])) ++
      markerTail includePct rest

/-- Embedding of `_trim_buffer`: nothing is removed when no horizon is
configured; otherwise head entries strictly older than
`now - (max_horizon + 5)` seconds are popped. -/
def _trim_buffer (maxHorizon : Int) (buf : List Sample) (now : ℚ) : List Sample :=
  if maxHorizon ≤ 0 then buf
  else buf.dropWhile (fun s => decide (s.ts < now - ((maxHorizon : ℚ) + 5)))

/-- Embedding of `_value_at_or_before`: scan the buffer from the most recent
entry backward and return the values of the first sample with
`ts <= target`. -/
def _value_at_or_before (buf : List Sample) (target : ℚ) : Option (ℚ × ℚ) :=
  match buf with
  | [] => none
  | s :: rest =>
    match _value_at_or_before rest target with
    | some v => some v
    | none => if s.ts ≤ target then some (s.spx, s.vix) else none

/-- Embedding of `_pct_change`: `None` when the past value is exactly zero,
otherwise `(now / past - 1) * 100`. -/
def _pct_change (now_val past_val : ℚ) : Option ℚ :=
  if past_val = 0 then none else some ((now_val / past_val - 1) * 100)

/-- Cells contributed by one horizon in the loop of `log`: all empty when no
sample is at or before `now - h`, otherwise the two deltas and, with percent
columns enabled, the two percent changes. -/
def horizonCells (includePct : Bool) (buf : List Sample) (now spx vix : ℚ)
    (h : Int) : List Cell :=
  match _value_at_or_before buf (now - (h : ℚ)) with
  | none => [Cell.empty, Cell.empty] ++ (if includePct then [Cell.empty, Cell.empty] else [])
  | some (pastSpx, pastVix) =>
    [Cell.num (spx - pastSpx), Cell.num (vix - pastVix)] ++
      (if includePct then
        [optNumCell (_pct_change spx pastSpx), optNumCell (_pct_change vix pastVix)]
      else [])

/-- Rolling cells of a data row: the horizon loop of `log` over the sorted
horizon list. -/
def rollingCells (includePct : Bool) (buf : List Sample) (now spx vix : ℚ) :
    List Int → List Cell
  | [] => []
  | h :: rest =>
    horizonCells includePct buf now spx vix h ++ rollingCells includePct buf now spx vix rest

/-- Cells of the data row rendered by `log`: timestamp, the two raw values,
the two immediate deltas, then the rolling cells. -/
def logRowCells (horizons : List Int) (includePct : Bool) (buf : List Sample)
    (now spx vix : ℚ) (dSpx dVix : Option ℚ) : List Cell :=
  [Cell.ts now, Cell.num spx, Cell.num vix, optNumCell dSpx, optNumCell dVix] ++
    rollingCells includePct buf now spx vix horizons

/-- Full logger state: options, precomputed horizons, the previous-sample
cache, the rolling buffer, the open file, the `_closed` flag and the pending
rotation timer flag. -/
structure LoggerState where
  opts : LoggerOptions
  horizons : List Int
  max_horizon : Int
  prevSpx : Option ℚ
  prevVix : Option ℚ
  buf : List Sample
  file : FileState
  closed : Bool
  timerPending : Bool
deriving DecidableEq

/-- Buffer after the trim-then-append step at the start of `log`. -/
def bufAfterLog (maxHorizon : Int) (buf : List Sample) (now spx vix : ℚ) :
    List Sample :=
  _trim_buffer maxHorizon buf now ++ [⟨now, spx, vix⟩]

/-- Embedding of `log(spx, vix)` at instant `now` (the value returned by the
pluggable time provider): compute the immediate deltas from the
previous-sample cache, trim and extend the buffer, render the row, write it,
then update the cache.  The only failure is writing to a closed file. -/
def log (st : LoggerState) (now spx vix : ℚ) : Except String LoggerState :=
  let dSpx := st.prevSpx.map (fun p => spx - p)
  let dVix := st.prevVix.map (fun p => vix - p)
  let buf2 := bufAfterLog st.max_horizon st.buf now spx vix
  let row := logRowCells st.horizons st.opts.include_percent_columns buf2 now spx vix dSpx dVix
  match writeLine st.file (Line.row row) with
  | Except.error e => Except.error e
  | Except.ok f => Except.ok ⟨st.opts, st.horizons, st.max_horizon,
      some spx, some vix, buf2, f, st.closed, st.timerPending⟩

/-- Embedding of `rotate_now(write_midnight_marker)` at instant `now`.
The freshly opened file starts from `newFileInit` (its pre-existing content;
`[]` for a genuinely new path).  Returns the finalized old file together with
the successor state.  Mirrors the source order: optional marker write to the
old file, guarded close of the old file, open of the new file, header if
empty, optional second marker write, then reset of the previous-sample cache
and the buffer. -/
def rotate_now (st : LoggerState) (writeMidnightMarker : Bool) (now : ℚ)
    (newFileInit : List Line) : Except String (FileState × LoggerState) :=
  let markerTs : Option ℚ := if writeMidnightMarker then some (midnightOf now) else none
  let step1 : Except String FileState :=
    match markerTs with
    | none => Except.ok st.file
    | some tsv =>
      writeLine st.file
        (Line.row (markerCells st.horizons st.opts.include_percent_columns tsv st.prevSpx st.prevVix))
  match step1 with
  | Except.error e => Except.error e
  | Except.ok fOld =>
    let fOldDone := closeFile fOld
    let fNew := _ensure_header ⟨newFileInit, false, 0⟩
      (_build_header st.horizons st.opts.include_percent_columns)
    let step2 : Except String FileState :=
      match markerTs with
      | none => Except.ok fNew
      | some tsv =>
        writeLine fNew
          (Line.row (markerCells st.horizons st.opts.include_percent_columns tsv st.prevSpx st.prevVix))
    match step2 with
    | Except.error e => Except.error e
    | Except.ok fNew2 =>
      Except.ok (fOldDone, ⟨st.opts, st.horizons, st.max_horizon,
        none, none, [], fNew2, st.closed, st.timerPending⟩)

/-- Embedding of `close()`: a second call returns immediately; the first call
sets the `_closed` flag, cancels the pending timer, and closes the file
handle if it is still open. -/
def close (st : LoggerState) : LoggerState :=
  if st.closed then st
  else ⟨st.opts, st.horizons, st.max_horizon, st.prevSpx, st.prevVix, st.buf,
    closeFile st.file, true, false⟩

/-- Embedding of construction on a fresh file whose initial content is
`existing` (empty when the resolved path did not exist): horizons are
filtered, deduplicated and sorted, the file is opened and the header written
if the file is empty, and a rotation is pending iff `rotate_at_midnight`. -/
def initLogger (opts : LoggerOptions) (existing : List Line) : LoggerState :=
  let horizons := mkHorizons opts.rolling_horizons_seconds
  ⟨opts, horizons, maxHorizonOf horizons, none, none, [],
    _ensure_header ⟨existing, false, 0⟩ (_build_header horizons opts.include_percent_columns),
    false, opts.rotate_at_midnight⟩

/-- Iterated `log` calls, each given its `(now, spx, vix)` input. -/
def runLogs (st : LoggerState) : List (ℚ × ℚ × ℚ) → Except String LoggerState
  | [] => Except.ok st
  | (now, spx, vix) :: rest =>
    match log st now spx vix with
    | Except.error e => Except.error e
    | Except.ok st2 => runLogs st2 rest

/-- Line classifier used to count header lines in a file. -/
def isHeaderLine : Line → Bool
  | Line.header _ => true
  | Line.row _ => false

/-- Field count of a written line. -/
def lineWidth : Line → Nat
  | Line.header cols => cols.length
  | Line.row cells => cells.length

/-- Success test for a fallible operation. -/
def isOk {ε α : Type} : Except ε α → Bool
  | Except.ok _ => true
  | Except.error _ => false

/-- Options for the concrete scenarios: no midnight timer, one 10-second
horizon, flush on, percent columns on. -/
def c9Options : LoggerOptions := ⟨false, [10], true, true⟩

/-- Eleven samples at 1-second cadence with SPX increasing by exactly 1.0 per
sample and VIX constant. -/
def c9Inputs : List (ℚ × ℚ × ℚ) :=
  [(0, 100, 20), (1, 101, 20), (2, 102, 20), (3, 103, 20), (4, 104, 20), (5, 105, 20),
    (6, 106, 20), (7, 107, 20), (8, 108, 20), (9, 109, 20), (10, 110, 20)]

/-- State after the eleven `log` calls of the 10-second-horizon scenario. -/
def c9Final : Except String LoggerState := runLogs (initLogger c9Options []) c9Inputs

/-- The `dSPX_10s` field (position 5, just after the five fixed columns) of
the last row written in the 10-second-horizon scenario. -/
def c9LastCell : Option Cell :=
  c9Final.toOption.bind fun st =>
    st.file.lines.getLast?.bind fun l =>
      match l with
      | Line.header _ => none
      | Line.row cs => (cs.drop 5).head?

/-- Options used by several concrete witnesses: midnight rotation on and the
default horizon set. -/
def wOpts : LoggerOptions := ⟨true, [10, 60, 300], true, true⟩

/-- A logger that has been closed, the starting point of the after-close
claims. -/
def c3State : LoggerState := close (initLogger c9Options [])

end DailyMarketLogger

namespace DailyMarketLogger

lemma horizonHeaderCols_length (includePct : Bool) (hs : List Int) :
    (horizonHeaderCols includePct hs).length = hs.length * (if includePct then 4 else 2) := by
  induction hs with
  | nil => simp [horizonHeaderCols]
  | cons h rest ih =>
    cases includePct <;> simp [horizonHeaderCols, ih] <;> ring

lemma markerTail_length (includePct : Bool) (hs : List Int) :
    (markerCells.markerTail includePct hs).length = hs.length * (if includePct then 4 else 2) := by
  induction hs with
  | nil => simp [markerCells.markerTail]
  | cons h rest ih =>
    cases includePct <;> simp [markerCells.markerTail, ih] <;> ring

lemma markerTail_mem (includePct : Bool) (hs : List Int) :
    ∀ c ∈ markerCells.markerTail includePct hs, c = Cell.empty := by
  induction hs with
  | nil => simp [markerCells.markerTail]
  | cons h rest ih =>
    intro c hc
    cases includePct <;> simp [markerCells.markerTail] at hc <;> tauto

lemma horizonCells_length (includePct : Bool) (buf : List Sample) (now spx vix : ℚ) (h : Int) :
    (horizonCells includePct buf now spx vix h).length = (if includePct then 4 else 2) := by
  unfold horizonCells
  cases _value_at_or_before buf (now - (h : ℚ)) with
  | none => cases includePct <;> simp
  | some p => cases p with
    | mk a b => cases includePct <;> simp

lemma rollingCells_length (includePct : Bool) (buf : List Sample) (now spx vix : ℚ)
    (hs : List Int) :
    (rollingCells includePct buf now spx vix hs).length = hs.length * (if includePct then 4 else 2) := by
  induction hs with
  | nil => simp [rollingCells]
  | cons h rest ih =>
    simp [rollingCells, horizonCells_length, ih]
    cases includePct <;> simp <;> ring

/-- C5: `_classify` maps an absent value to `NA`, a value at or above the up
threshold to `UP`, otherwise a value at or below the negated down threshold
to `DOWN`, and anything else to `FLAT`; in particular 0.3 with thresholds
0.25 is `UP`, -0.3 is `DOWN`, 0.1 is `FLAT` and an absent value is `NA`. -/
theorem classify_cases :
    (∀ u d : ℚ, _classify none u d = Trend.NA) ∧
    (∀ v u d : ℚ, v ≥ u → _classify (some v) u d = Trend.UP) ∧
    (∀ v u d : ℚ, ¬ v ≥ u → v ≤ -d → _classify (some v) u d = Trend.DOWN) ∧
    (∀ v u d : ℚ, ¬ v ≥ u → ¬ v ≤ -d → _classify (some v) u d = Trend.FLAT) ∧
    _classify (some (3 / 10)) (1 / 4) (1 / 4) = Trend.UP ∧
    _classify (some (-(3 / 10))) (1 / 4) (1 / 4) = Trend.DOWN ∧
    _classify (some (1 / 10)) (1 / 4) (1 / 4) = Trend.FLAT := by
  refine ⟨fun u d => rfl, ?_, ?_, ?_, ?_, ?_, ?_⟩
  · intro v u d h; simp [_classify, h]
  · intro v u d h1 h2; simp [_classify, h1, h2]
  · intro v u d h1 h2; simp [_classify, h1, h2]
  · norm_num [_classify]
  · norm_num [_classify]
  · norm_num [_classify]

theorem classify_cases_witness :
    _classify (some 1) 1 1 = Trend.UP ∧ _classify (some 0) 1 1 = Trend.FLAT :=
  ⟨classify_cases.2.1 1 1 1 le_rfl,
    classify_cases.2.2.2.1 0 1 1 (by decide) (by decide)⟩

/-- C6: when a horizon lookup finds a past sample whose value is exactly
zero, `_pct_change` is absent, the percent field of that horizon is rendered
as an empty cell, classifying the absent result gives `NA`, and `log` never
fails while the file is open (division by zero is never raised). -/
theorem pct_zero_spec (buf : List Sample) (now spx vix : ℚ) (h : Int) (pastVix : ℚ)
    (hfind : _value_at_or_before buf (now - (h : ℚ)) = some (0, pastVix)) :
    _pct_change spx 0 = none ∧
    horizonCells true buf now spx vix h =
      [Cell.num (spx - 0), Cell.num (vix - pastVix), Cell.empty,
        optNumCell (_pct_change vix pastVix)] ∧
    (∀ u d : ℚ, _classify (_pct_change spx 0) u d = Trend.NA) ∧
    (∀ (st : LoggerState) (n a b : ℚ), st.file.closed = false →
      isOk (log st n a b) = true) := by
  refine ⟨by simp [_pct_change], ?_, ?_, ?_⟩
  · simp [horizonCells, hfind, _pct_change, optNumCell]
  · intro u d; simp [_pct_change, _classify]
  · intro st n a b hopen
    simp [log, writeLine, hopen, isOk]

theorem pct_zero_spec_witness :
    _pct_change 2 0 = none :=
  (pct_zero_spec [⟨0, 0, 5⟩] 0 2 10 0 5 (by simp [_value_at_or_before])).1

/-- C8: `close` is idempotent, a second call does not invoke `close()` on the
file handle again, and the first call cancels the pending rotation, closes an
open file and counts exactly one close of it.  The operation is total, so it
never raises. -/
theorem close_idempotent (st : LoggerState) :
    close (close st) = close st ∧
    (close (close st)).file.closeCount = (close st).file.closeCount ∧
    (st.closed = false →
      (close st).timerPending = false ∧ (close st).file.closed = true ∧
      (st.file.closed = false → (close st).file.closeCount = st.file.closeCount + 1)) := by
  by_cases h : st.closed
  · simp [close, h]
  · by_cases hf : st.file.closed <;> simp [close, closeFile, h, hf]

theorem close_idempotent_witness :
    (close (initLogger wOpts [])).file.closeCount = (initLogger wOpts []).file.closeCount + 1 :=
  (((close_idempotent (initLogger wOpts [])).2.2 (by decide)).2.2) (by decide)

lemma dropWhile_trim_facts (c : ℚ) (buf : List Sample) (hsorted : sortedByTs buf) :
    ∀ s ∈ buf.dropWhile (fun s => decide (s.ts < c)), c ≤ s.ts ∧ s ∈ buf := by
  induction buf with
  | nil => simp
  | cons a rest ih =>
    obtain ⟨ha, hrest⟩ := List.pairwise_cons.mp hsorted
    by_cases hc : a.ts < c
    · intro s hmem
      simp [List.dropWhile_cons, hc] at hmem
      obtain ⟨h1, h2⟩ := ih hrest s hmem
      exact ⟨h1, List.mem_cons_of_mem _ h2⟩
    · intro s hmem
      simp [List.dropWhile_cons, hc] at hmem
      rcases hmem with rfl | hmem2
      · exact ⟨not_lt.mp hc, List.mem_cons_self _ _⟩
      · exact ⟨le_trans (not_lt.mp hc) (ha s hmem2), List.mem_cons_of_mem _ hmem2⟩

/-- C7: after the trim-then-append step of `log`, every retained sample lies
in the window from `now - (max_horizon + 5)` seconds up to `now` (older head
entries are dropped), and with `max_horizon = 0` the trim never removes
anything. -/
theorem trim_retention_spec (maxH : Int) (buf : List Sample) (now spx vix : ℚ)
    (hsorted : sortedByTs buf) (hbound : ∀ s ∈ buf, s.ts ≤ now) :
    (0 < maxH →
      ∀ s ∈ bufAfterLog maxH buf now spx vix,
        now - ((maxH : ℚ) + 5) ≤ s.ts ∧ s.ts ≤ now) ∧
    (∀ (b : List Sample) (n : ℚ), _trim_buffer 0 b n = b) := by
  constructor
  · intro hpos s hmem
    have hq : (0 : ℚ) < (maxH : ℚ) := by exact_mod_cast hpos
    rcases List.mem_append.mp hmem with hmem1 | hmem2
    · have hne : ¬ maxH ≤ 0 := not_le.mpr hpos
      rw [_trim_buffer, if_neg hne] at hmem1
      obtain ⟨h1, h2⟩ := dropWhile_trim_facts (now - ((maxH : ℚ) + 5)) buf hsorted s hmem1
      exact ⟨h1, hbound s h2⟩
    · rcases List.mem_singleton.mp hmem2 with rfl
      constructor
      · simp only
        linarith
      · simp only
        exact le_refl now
  · intro b n
    simp [_trim_buffer]

theorem trim_retention_spec_witness :
    _trim_buffer 0 [⟨0, 1, 2⟩] 5 = [⟨0, 1, 2⟩] :=
  (trim_retention_spec 10 [⟨0, 1, 2⟩] 1 3 4 (by decide) (by decide)).2 [⟨0, 1, 2⟩] 5

end DailyMarketLogger

namespace DailyMarketLogger

/-- C2: on a buffer with non-decreasing timestamps, `_value_at_or_before`
returns `none` exactly when every retained sample is strictly newer than the
target (in particular on an empty buffer), and otherwise returns the values
of a qualifying sample whose timestamp is maximal among the qualifying
ones — the most recent retained sample at or before the target. -/
theorem value_at_or_before_spec (buf : List Sample) (t : ℚ) (hsorted : sortedByTs buf) :
    (_value_at_or_before buf t = none ↔ ∀ s ∈ buf, t < s.ts) ∧
    (∀ p, _value_at_or_before buf t = some p →
      ∃ s, s ∈ buf ∧ s.ts ≤ t ∧ p = (s.spx, s.vix) ∧
        ∀ s2 ∈ buf, s2.ts ≤ t → s2.ts ≤ s.ts) := by
  induction buf with
  | nil =>
    constructor
    · simp [_value_at_or_before]
    · intro p hp
      simp [_value_at_or_before] at hp
  | cons a rest ih =>
    obtain ⟨ha, hrest⟩ := List.pairwise_cons.mp hsorted
    obtain ⟨ihn, ihs⟩ := ih hrest
    cases hv : _value_at_or_before rest t with
    | some v =>
      have hred : _value_at_or_before (a :: rest) t = some v := by
        simp [_value_at_or_before, hv]
      obtain ⟨s0, hmem, hle, hval, hmax⟩ := ihs v hv
      constructor
      · rw [hred]
        constructor
        · intro hcontra
          simp at hcontra
        · intro hall
          exact ((not_le.mpr (hall s0 (List.mem_cons_of_mem _ hmem))) hle).elim
      · intro p hp
        rw [hred] at hp
        cases Option.some.inj hp
        refine ⟨s0, List.mem_cons_of_mem _ hmem, hle, hval, ?_⟩
        intro s2 hs2 hs2le
        rcases List.mem_cons.mp hs2 with rfl | h2
        · exact ha s0 hmem
        · exact hmax s2 h2 hs2le
    | none =>
      by_cases hat : a.ts ≤ t
      · have hred : _value_at_or_before (a :: rest) t = some (a.spx, a.vix) := by
          simp [_value_at_or_before, hv, hat]
        constructor
        · rw [hred]
          constructor
          · intro hcontra
            simp at hcontra
          · intro hall
            exact ((not_le.mpr (hall a (List.mem_cons_self _ _))) hat).elim
        · intro p hp
          rw [hred] at hp
          refine ⟨a, List.mem_cons_self _ _, hat, (Option.some.inj hp).symm, ?_⟩
          intro s2 hs2 hs2le
          rcases List.mem_cons.mp hs2 with rfl | h2
          · exact le_refl _
          · exact absurd hs2le (not_le.mpr (ihn.mp hv s2 h2))
      · have hred : _value_at_or_before (a :: rest) t = none := by
          simp [_value_at_or_before, hv, hat]
        constructor
        · rw [hred]
          constructor
          · intro _ s hs
            rcases List.mem_cons.mp hs with rfl | h2
            · exact not_le.mp hat
            · exact ihn.mp hv s h2
          · intro _
            rfl
        · intro p hp
          rw [hred] at hp
          simp at hp

theorem value_at_or_before_spec_witness :
    _value_at_or_before [⟨1, 10, 20⟩, ⟨2, 11, 21⟩] 0 = none :=
  (value_at_or_before_spec [⟨1, 10, 20⟩, ⟨2, 11, 21⟩] 0 (by decide)).1.mpr (by decide)

lemma logRowCells_width (hs : List Int) (pct : Bool) (buf : List Sample)
    (now spx vix : ℚ) (dS dV : Option ℚ) :
    (logRowCells hs pct buf now spx vix dS dV).length = (_build_header hs pct).length := by
  simp [logRowCells, _build_header, rollingCells_length, horizonHeaderCols_length]

lemma markerCells_width (hs : List Int) (pct : Bool) (tsv : ℚ) (pS pV : Option ℚ) :
    (markerCells hs pct tsv pS pV).length = (_build_header hs pct).length := by
  simp [markerCells, _build_header, markerTail_length, horizonHeaderCols_length]

lemma log_ok_dest (st : LoggerState) (now spx vix : ℚ) (st2 : LoggerState)
    (h : log st now spx vix = Except.ok st2) :
    st2.opts = st.opts ∧ st2.horizons = st.horizons ∧
    st2.file.lines = st.file.lines ++
      [Line.row (logRowCells st.horizons st.opts.include_percent_columns
        (bufAfterLog st.max_horizon st.buf now spx vix) now spx vix
        (st.prevSpx.map (fun p => spx - p)) (st.prevVix.map (fun p => vix - p)))] := by
  unfold log writeLine at h
  by_cases hc : st.file.closed
  · simp [hc] at h
  · simp [hc] at h
    subst h
    simp

lemma runLogs_ok_facts (inputs : List (ℚ × ℚ × ℚ)) :
    ∀ st st2 : LoggerState, runLogs st inputs = Except.ok st2 →
      st2.opts = st.opts ∧ st2.horizons = st.horizons ∧
      st2.file.lines.countP isHeaderLine = st.file.lines.countP isHeaderLine ∧
      ((∀ l ∈ st.file.lines, lineWidth l =
          (_build_header st.horizons st.opts.include_percent_columns).length) →
        (∀ l ∈ st2.file.lines, lineWidth l =
          (_build_header st2.horizons st2.opts.include_percent_columns).length)) := by
  induction inputs with
  | nil =>
    intro st st2 h
    simp [runLogs] at h
    subst h
    exact ⟨rfl, rfl, rfl, fun hw => hw⟩
  | cons trip rest ih =>
    intro st st2 h
    obtain ⟨now, spx, vix⟩ := trip
    unfold runLogs at h
    cases hlog : log st now spx vix with
    | error e =>
      rw [hlog] at h
      simp at h
    | ok stm =>
      rw [hlog] at h
      simp only at h
      obtain ⟨ho, hh, hcount, hwidth⟩ := ih stm st2 h
      obtain ⟨lo, lh, llines⟩ := log_ok_dest st now spx vix stm hlog
      refine ⟨ho.trans lo, hh.trans lh, ?_, ?_⟩
      · rw [hcount, llines, List.countP_append]
        simp [isHeaderLine]
      · intro hw
        apply hwidth
        rw [llines, lo, lh]
        intro l hl
        rcases List.mem_append.mp hl with hl1 | hl2
        · exact hw l hl1
        · rcases List.mem_singleton.mp hl2 with rfl
          simp [lineWidth, logRowCells_width]

/-- C4: the header has exactly `5 + horizons * (4 or 2)` columns, a run of
`log` calls from construction leaves exactly one header line in the file, and
`_ensure_header` leaves any non-empty file untouched (the header is written
only when the file is empty). -/
theorem header_once_spec (opts : LoggerOptions) (inputs : List (ℚ × ℚ × ℚ)) (st2 : LoggerState)
    (hrun : runLogs (initLogger opts []) inputs = Except.ok st2) :
    (_build_header (mkHorizons opts.rolling_horizons_seconds) opts.include_percent_columns).length =
      5 + (mkHorizons opts.rolling_horizons_seconds).length *
        (if opts.include_percent_columns then 4 else 2) ∧
    st2.file.lines.countP isHeaderLine = 1 ∧
    (∀ (f : FileState) (cols : List String), f.lines ≠ [] → _ensure_header f cols = f) := by
  refine ⟨by simp [_build_header, horizonHeaderCols_length]; split <;> omega, ?_, ?_⟩
  · obtain ⟨-, -, hcount, -⟩ := runLogs_ok_facts inputs (initLogger opts []) st2 hrun
    rw [hcount]
    simp [initLogger, _ensure_header, isHeaderLine]
  · intro f cols hne
    simp [_ensure_header, hne]

theorem header_once_spec_witness :
    (initLogger wOpts []).file.lines.countP isHeaderLine = 1 :=
  (header_once_spec wOpts [] (initLogger wOpts []) rfl).2.1

/-- C10: every data row rendered by `log` and every marker row rendered for a
rotation has exactly as many fields as the header — `5 + horizons * (4 or
2)` — and consequently, after any run of `log` calls from construction,
every line of the file has the header width. -/
theorem row_width_spec :
    (∀ (hs : List Int) (pct : Bool) (buf : List Sample) (now spx vix : ℚ) (dS dV : Option ℚ),
      (logRowCells hs pct buf now spx vix dS dV).length = (_build_header hs pct).length) ∧
    (∀ (hs : List Int) (pct : Bool) (tsv : ℚ) (pS pV : Option ℚ),
      (markerCells hs pct tsv pS pV).length = (_build_header hs pct).length) ∧
    (∀ (hs : List Int) (pct : Bool),
      (_build_header hs pct).length = 5 + hs.length * (if pct then 4 else 2)) ∧
    (∀ (opts : LoggerOptions) (inputs : List (ℚ × ℚ × ℚ)) (st2 : LoggerState),
      runLogs (initLogger opts []) inputs = Except.ok st2 →
      ∀ l ∈ st2.file.lines, lineWidth l =
        (_build_header st2.horizons st2.opts.include_percent_columns).length) := by
  refine ⟨logRowCells_width, markerCells_width,
    fun hs pct => by simp [_build_header, horizonHeaderCols_length]; split <;> omega, ?_⟩
  intro opts inputs st2 hrun
  obtain ⟨-, -, -, hwidth⟩ := runLogs_ok_facts inputs (initLogger opts []) st2 hrun
  apply hwidth
  intro l hl
  simp [initLogger, _ensure_header] at hl
  subst hl
  simp [lineWidth, initLogger]

theorem row_width_spec_witness :
    lineWidth (Line.header (_build_header (mkHorizons [10, 60, 300]) true)) =
      (_build_header (initLogger wOpts []).horizons
        (initLogger wOpts []).opts.include_percent_columns).length :=
  row_width_spec.2.2.2 wOpts [] (initLogger wOpts []) rfl
    (Line.header (_build_header (mkHorizons [10, 60, 300]) true)) (by decide)

end DailyMarketLogger

namespace DailyMarketLogger

/-- C1: rotating with the midnight marker appends the marker row — timestamp
at local midnight (a whole multiple of 86400 seconds), the optionally-known
previous values, every delta and percent field empty — to the old file,
closes that file, opens the new file, writes the header exactly when that
file is empty, writes the same marker row as the first data row of the new
file, and leaves the previous-sample cache absent and the rolling buffer
empty. -/
theorem rotate_marker_spec (st : LoggerState) (now : ℚ) (newFileInit : List Line)
    (hopen : st.file.closed = false) :
    rotate_now st true now newFileInit =
      Except.ok
        (⟨st.file.lines ++
            [Line.row (markerCells st.horizons st.opts.include_percent_columns
              (midnightOf now) st.prevSpx st.prevVix)],
          true, st.file.closeCount + 1⟩,
          ⟨st.opts, st.horizons, st.max_horizon, none, none, [],
            ⟨(if newFileInit = [] then
                [Line.header (_build_header st.horizons st.opts.include_percent_columns)]
              else newFileInit) ++
              [Line.row (markerCells st.horizons st.opts.include_percent_columns
                (midnightOf now) st.prevSpx st.prevVix)],
              false, 0⟩,
            st.closed, st.timerPending⟩) ∧
    (∃ d : ℤ, midnightOf now = (86400 : ℚ) * d) ∧
    (∀ c ∈ (markerCells st.horizons st.opts.include_percent_columns
        (midnightOf now) st.prevSpx st.prevVix).drop 3, c = Cell.empty) := by
  refine ⟨?_, ⟨⌊now / 86400⌋, rfl⟩, ?_⟩
  · unfold rotate_now writeLine closeFile _ensure_header
    by_cases hn : newFileInit = [] <;> simp [hopen, hn]
  · intro c hc
    have hd : (markerCells st.horizons st.opts.include_percent_columns
        (midnightOf now) st.prevSpx st.prevVix).drop 3 =
        Cell.empty :: Cell.empty ::
          markerCells.markerTail st.opts.include_percent_columns st.horizons := rfl
    rw [hd] at hc
    rcases List.mem_cons.mp hc with rfl | hc2
    · rfl
    rcases List.mem_cons.mp hc2 with rfl | hc3
    · rfl
    exact markerTail_mem _ _ c hc3

theorem rotate_marker_spec_witness :
    isOk (rotate_now (initLogger wOpts []) true 90000 []) = true := by
  rw [(rotate_marker_spec (initLogger wOpts []) 90000 [] (by decide)).1]
  rfl

/-- C3 counterexample: a logger that has been closed still accepts
`rotate_now` without the midnight marker — the call is not rejected, it
succeeds and silently reopens a fresh file. -/
theorem rotate_after_close_not_rejected :
    c3State.closed = true ∧ isOk (rotate_now c3State false 0 []) = true := by
  decide

/-- C3 amended: after `close`, a `log` call and a `rotate_now` call with the
midnight marker fail with an error when they hit the closed file handle, but
a `rotate_now` call without the marker is not rejected: it opens a new file
and proceeds. -/
theorem after_close_spec (st : LoggerState) (hc : st.closed = false) :
    (∀ now spx vix : ℚ, isOk (log (close st) now spx vix) = false) ∧
    (∀ (now : ℚ) (ni : List Line), isOk (rotate_now (close st) true now ni) = false) ∧
    (∀ (now : ℚ) (ni : List Line), isOk (rotate_now (close st) false now ni) = true) := by
  have hfc : (close st).file.closed = true := by
    by_cases hf : st.file.closed <;> simp [close, closeFile, hc, hf]
  refine ⟨?_, ?_, ?_⟩
  · intro now spx vix
    simp [log, writeLine, hfc, isOk]
  · intro now ni
    simp [rotate_now, writeLine, hfc, isOk]
  · intro now ni
    by_cases hni : ni = [] <;>
      simp [rotate_now, writeLine, closeFile, hfc, hni, isOk, _ensure_header]

theorem after_close_spec_witness :
    isOk (log (close (initLogger c9Options [])) 0 1 2) = false :=
  (after_close_spec (initLogger c9Options []) (by decide)).1 0 1 2

/-- C9: with a single configured 10-second horizon, eleven samples at exactly
1-second cadence whose SPX value increases by exactly 1.0 per sample yield,
in the row written by the eleventh `log` call, a 10-second SPX delta of
exactly 10. -/
theorem eleventh_row_delta_spec : c9LastCell = some (Cell.num 10) := by
  norm_num [c9LastCell, c9Final, c9Inputs, c9Options, runLogs, log, initLogger, mkHorizons,
    sortInts, insertSorted, maxHorizonOf, bufAfterLog, _trim_buffer, _value_at_or_before,
    _pct_change, horizonCells, rollingCells, logRowCells, optNumCell, writeLine,
    _ensure_header, _build_header, horizonHeaderCols]
  decide

end DailyMarketLogger
